import Mathlib

/-!
Verification of the sales-and-profitability synthesis pipeline
(`salesandprofitability.py`) against its specification.

The script generates `num_records` synthetic sales transactions from a seeded
random source, derives financial metrics per transaction, validates integrity
invariants, normalizes into a star schema (product/region dimensions plus a
fact table), and computes aggregate views and per-customer RFM segmentation.

The embedding below is parametric in the random draws: a `RawDraw` record holds
the per-record draws (date offset, product, region, base quantity, customer id,
unit price) and a single scalar `disc` holds the one cost-discount draw
`np.random.uniform(0.6, 0.9)` of line 57 (drawn without a `size` argument, hence
a scalar broadcast to every row).  Real numbers are modelled as rationals;
pandas timestamps are modelled as days since 1970-01-01 with a proleptic
Gregorian conversion.
-/

namespace SalesAndProfitability

/-! ### Calendar model

Pandas timestamps at day granularity are days since the epoch 1970-01-01.
`civilFromDays` converts an epoch-day ordinal to a proleptic-Gregorian
`(year, month, day)` triple and `daysFromCivil` is the reverse direction
(standard era/day-of-era decomposition; all quantities stay nonnegative for
the dates this program uses, which lie in 2023-2024). -/

def civilFromDays (z : Nat) : Nat × Nat × Nat :=
  let zd := z + 719468
  let era := zd / 146097
  let doe := zd % 146097
  let yoe := (doe - doe / 1460 + doe / 36524 - doe / 146096) / 365
  let y := yoe + era * 400
  let doy := doe - (365 * yoe + yoe / 4 - yoe / 100)
  let mp := (5 * doy + 2) / 153
  let d := doy - (153 * mp + 2) / 5 + 1
  let m := if mp < 10 then mp + 3 else mp - 9
  (if m ≤ 2 then y + 1 else y, m, d)

def daysFromCivil (y m d : Nat) : Nat :=
  let y' := if m ≤ 2 then y - 1 else y
  let era := y' / 400
  let yoe := y' - era * 400
  let doy := (153 * (if 2 < m then m - 3 else m + 9) + 2) / 5 + d - 1
  let doe := yoe * 365 + yoe / 4 - yoe / 100 + doy
  era * 146097 + doe - 719468

/-- `Date.dt.month` of an epoch-day ordinal. -/
def monthOf (z : Nat) : Nat := (civilFromDays z).2.1

/-- Day of month of an epoch-day ordinal. -/
def domOf (z : Nat) : Nat := (civilFromDays z).2.2

/-- Year of an epoch-day ordinal. -/
def yearOf (z : Nat) : Nat := (civilFromDays z).1

/-- `Date.dt.to_period('M')`: the `(year, month)` pair labelling a month period
(the string formatting `YYYY-MM` is injective on these pairs, so the pair is a
faithful stand-in for the label). -/
def ymOf (z : Nat) : Nat × Nat := ((civilFromDays z).1, (civilFromDays z).2.1)

/-- The month period immediately before a given `(year, month)` period. -/
def prevYM (p : Nat × Nat) : Nat × Nat :=
  if p.2 = 1 then (p.1 - 1, 12) else (p.1, p.2 - 1)

/-- `Date.dt.dayofweek`: Monday = 0, ..., Sunday = 6.  Epoch day 0
(1970-01-01) was a Thursday, i.e. 3 in this convention. -/
def dowOf (z : Nat) : Nat := (z + 3) % 7

/-- The month period of `Date + pd.offsets.MonthBegin(-1)` (line 74).  The
anchored offset `MonthBegin(-1)` rolls a timestamp back to the previous
month-begin anchor: a timestamp already on the first of a month moves to the
first of the preceding month, while any other timestamp moves to the first of
its own month.  Taking `to_period('M')` of the result therefore yields the
preceding month exactly when the day of month is 1, and the timestamp's own
month otherwise. -/
def cohortYM (z : Nat) : Nat × Nat :=
  if domOf z = 1 then prevYM (ymOf z) else ymOf z

/-! ### Catalogs and the per-product price table (lines 12-24) -/

inductive Product where
  | Laptop | Smartphone | Tablet | Headphones | Monitor
deriving DecidableEq

inductive Region where
  | North | South | East | West
deriving DecidableEq

/-- Lower endpoint of `product_prices[p]`. -/
def priceLow : Product → ℚ
  | .Laptop => 800
  | .Smartphone => 400
  | .Tablet => 200
  | .Headphones => 50
  | .Monitor => 150

/-- Upper endpoint of `product_prices[p]`. -/
def priceHigh : Product → ℚ
  | .Laptop => 1500
  | .Smartphone => 900
  | .Tablet => 600
  | .Headphones => 300
  | .Monitor => 800

/-- `start_date = datetime(2023, 1, 1)` as an epoch-day ordinal. -/
def startOrd : Nat := daysFromCivil 2023 1 1

/-- `date_range = (end_date - start_date).days` (line 39). -/
def dateRangeDays : Nat := daysFromCivil 2024 12 31 - daysFromCivil 2023 1 1

/-! ### Transaction identities (line 44): `f'TX-{i:05d}'` -/

/-- The decimal digit characters. -/
def digitChar : Nat → Char
  | 0 => '0' | 1 => '1' | 2 => '2' | 3 => '3' | 4 => '4'
  | 5 => '5' | 6 => '6' | 7 => '7' | 8 => '8' | 9 => '9'
  | _ => '?'

/-- Inverse of `digitChar` on decimal digits. -/
def digitVal (c : Char) : Nat := c.toNat - 48

/-- Decimal representation, most significant digit first, by structural
recursion on a fuel bound (so that it evaluates by kernel reduction). -/
def decCharsAux : Nat → Nat → List Char
  | 0, _ => []
  | fuel + 1, n =>
    if n = 0 then [] else decCharsAux fuel (n / 10) ++ [digitChar (n % 10)]

/-- Decimal representation of `n` as a character list, most significant digit
first (empty for `n = 0`, which never occurs since indices start at 1). -/
def decChars (n : Nat) : List Char := decCharsAux n n

/-- Python's `f'{n:05d}'` for nonnegative `n`: the decimal digits left-padded
with `'0'` to a width of at least 5. -/
def padChars (n : Nat) : List Char :=
  List.replicate (5 - (decChars n).length) '0' ++ decChars n

/-- `Transaction_ID` of the `i`-th record (1-based): `f'TX-{i:05d}'`. -/
def txId (i : Nat) : String := String.mk ('T' :: 'X' :: '-' :: padChars i)

/-- Drops any leading `'0'` characters (used to invert the zero padding of
transaction identities). -/
def stripZeros : List Char → List Char
  | [] => []
  | c :: l => if c = '0' then stripZeros l else c :: l

/-! ### Raw draws and derived transactions (lines 42-74) -/

/-- The per-record random draws consumed by the synthesizer and metric deriver:
`random.randint(0, date_range)`, `random.choice(products)`,
`random.choice(regions)`, `np.random.randint(1, 50)`,
`np.random.randint(10000, 99999)`, and `np.random.uniform(*product_prices[x])`. -/
structure RawDraw where
  dateOffset : Nat
  product : Product
  region : Region
  baseUnits : Nat
  customer : Nat
  price : ℚ
deriving DecidableEq

/-- The ranges the random draws are documented to lie in:
`randint(0, date_range)` is inclusive on both ends, `np.random.randint(1, 50)`
is `[1, 50)`, `np.random.randint(10000, 99999)` is `[10000, 99999)`, and
`np.random.uniform(low, high)` lies in `[low, high)`. -/
def drawValid (r : RawDraw) : Prop :=
  r.dateOffset ≤ dateRangeDays ∧
  1 ≤ r.baseUnits ∧ r.baseUnits < 50 ∧
  10000 ≤ r.customer ∧ r.customer < 99999 ∧
  priceLow r.product ≤ r.price ∧ r.price < priceHigh r.product

instance (r : RawDraw) : Decidable (drawValid r) := by
  unfold drawValid; infer_instance

/-- The single scalar draw `np.random.uniform(0.6, 0.9)` of line 57. -/
def discValid (d : ℚ) : Prop := 3/5 ≤ d ∧ d < 9/10

instance (d : ℚ) : Decidable (discValid d) := by
  unfold discValid; infer_instance

/-- One fully derived transaction row of the DataFrame after lines 42-74. -/
structure Tx where
  Transaction_ID : String
  idx : Nat
  Date : Nat
  product : Product
  region : Region
  Customer_ID : Nat
  baseUnits : Nat
  Units_Sold : ℚ
  Unit_Price : ℚ
  Unit_Cost : ℚ
  Day_of_Week : Nat
  Month : Nat
  Is_Holiday : Nat
  Total_Sales : ℚ
  Total_Cost : ℚ
  Profit : ℚ
  Profit_Margin : ℚ
  Month_Year : Nat × Nat
  Cohort_Month : Nat × Nat
deriving DecidableEq

/-- Derivation of one transaction row from its raw draws (lines 42-74):
date = `start_date + timedelta(days=dateOffset)`;
`Unit_Cost = np.minimum(Unit_Price * 0.9, Unit_Price * disc)`;
`Is_Holiday = Month.isin([12, 1])`;
`Units_Sold = Units_Sold * (1 + Is_Holiday * 0.3 + (Day_of_Week > 4) * 0.2)`;
`Total_Sales = Units_Sold * Unit_Price`; `Total_Cost = Units_Sold * Unit_Cost`;
`Profit = Total_Sales - Total_Cost`;
`Profit_Margin = Profit / Total_Sales * 100`. -/
def deriveTx (disc : ℚ) (i : Nat) (r : RawDraw) : Tx :=
  let z := startOrd + r.dateOffset
  let dow := dowOf z
  let m := monthOf z
  let hol : Nat := if m = 12 ∨ m = 1 then 1 else 0
  let units : ℚ :=
    (r.baseUnits : ℚ) * (1 + (hol : ℚ) * (3/10) + (if 4 < dow then (1 : ℚ) else 0) * (2/10))
  let cost := min (r.price * (9/10)) (r.price * disc)
  let sales := units * r.price
  let tcost := units * cost
  let prof := sales - tcost
  { Transaction_ID := txId i
    idx := i
    Date := z
    product := r.product
    region := r.region
    Customer_ID := r.customer
    baseUnits := r.baseUnits
    Units_Sold := units
    Unit_Price := r.price
    Unit_Cost := cost
    Day_of_Week := dow
    Month := m
    Is_Holiday := hol
    Total_Sales := sales
    Total_Cost := tcost
    Profit := prof
    Profit_Margin := prof / sales * 100
    Month_Year := ymOf z
    Cohort_Month := cohortYM z }

/-- Builds the derived rows for draws `rs`, numbering them `i, i+1, ...`
(the script numbers transactions `1 .. num_records`). -/
def mkDatasetAux (disc : ℚ) : Nat → List RawDraw → List Tx
  | _, [] => []
  | i, r :: rs => deriveTx disc i r :: mkDatasetAux disc (i + 1) rs

/-- The derived DataFrame `df` after lines 42-74, as a function of the draws. -/
def mkDataset (draws : List RawDraw) (disc : ℚ) : List Tx :=
  mkDatasetAux disc 1 draws

/-! ### Star schema (lines 84-95)

`df[['Product']].drop_duplicates()` keeps the first occurrence of each distinct
value, in order of first appearance; `reset_index` + `index + 1000` assigns
surrogate keys `1000, 1001, ...` in that order (`2000, ...` for regions).
`df.merge(dim, on=key)` is a relational inner join: each left row is paired
with every dimension row carrying the same natural key. -/

/-- Distinct values in order of first appearance (`drop_duplicates`), with the
already-seen values carried as an accumulator. -/
def firstAppAux {α : Type} [DecidableEq α] (seen : List α) : List α → List α
  | [] => []
  | a :: l =>
    if a ∈ seen then firstAppAux seen l else a :: firstAppAux (a :: seen) l

/-- Distinct values of a list in order of first appearance. -/
def firstAppearance {α : Type} [DecidableEq α] (l : List α) : List α :=
  firstAppAux [] l

/-- Pairs each element of a list with consecutive surrogate keys
`base, base + 1, ...`. -/
def withKeys {α : Type} (base : Nat) : List α → List (α × Nat)
  | [] => []
  | a :: l => (a, base) :: withKeys (base + 1) l

/-- `product_dim` (lines 85-86): distinct products in first-appearance order,
keyed `1000, 1001, ...`. -/
def product_dim (txs : List Tx) : List (Product × Nat) :=
  withKeys 1000 (firstAppearance (txs.map Tx.product))

/-- `region_dim` (lines 88-89): distinct regions in first-appearance order,
keyed `2000, 2001, ...`. -/
def region_dim (txs : List Tx) : List (Region × Nat) :=
  withKeys 2000 (firstAppearance (txs.map Tx.region))

/-- Relational inner join of `rows` against a two-column dimension table
`dim`, on `key row = fst entry`: each row is paired with the value of every
matching dimension entry (`df.merge(dim, on=...)`, up to row order, which no
aggregate or set-level property below depends on). -/
def joinKey {β κ γ : Type} [DecidableEq κ]
    (rows : List β) (key : β → κ) (dim : List (κ × γ)) : List (β × γ) :=
  rows.flatMap fun r => (dim.filter fun kv => kv.1 = key r).map fun kv => (r, kv.2)

/-- `fact_table` (lines 92-95): the transaction set joined with both dimension
tables, each row now carrying `Product_ID` and `Region_ID` in place of the
product and region names. -/
def fact_table (txs : List Tx) : List ((Tx × Nat) × Nat) :=
  joinKey (joinKey txs Tx.product (product_dim txs))
    (fun pr => pr.1.region) (region_dim txs)

/-- The transaction row of a fact-table row. -/
def factTx (f : (Tx × Nat) × Nat) : Tx := f.1.1

/-- The `Product_ID` surrogate key of a fact-table row. -/
def factPid (f : (Tx × Nat) × Nat) : Nat := f.1.2

/-- The `Region_ID` surrogate key of a fact-table row. -/
def factRid (f : (Tx × Nat) × Nat) : Nat := f.2

/-! ### Aggregations (lines 97-116) and RFM segmentation (lines 118-124)

`groupby(k).agg({...: 'sum'})` partitions the fact rows by key and sums each
group.  Only row order of the output depends on pandas' key sorting; every
property below (sums, memberships, multiplicities) is order-independent, so
the groups are enumerated in first-appearance order here. -/

/-- Group-and-sum: one output row per distinct key, carrying the sum of
`val` over the rows with that key. -/
def groupSum {β κ : Type} [DecidableEq κ]
    (key : β → κ) (val : β → ℚ) (rows : List β) : List (κ × ℚ) :=
  (firstAppearance (rows.map key)).map fun k =>
    (k, ((rows.filter fun r => key r = k).map val).sum)

/-- The `Total_Profit` column of `sales_by_product` (lines 98-104): profit
summed by `Product_ID`, then joined back with `product_dim` to attach the
product name. -/
def sales_by_product (txs : List Tx) : List ((Nat × ℚ) × Product) :=
  joinKey (groupSum factPid (fun f => (factTx f).Profit) (fact_table txs))
    Prod.fst ((product_dim txs).map fun pv => (pv.2, pv.1))

/-- The `Profit` column of `sales_trends` (lines 106-109): profit summed by
`Month_Year`. -/
def sales_trends (txs : List Tx) : List ((Nat × Nat) × ℚ) :=
  groupSum (fun f => (factTx f).Month_Year) (fun f => (factTx f).Profit)
    (fact_table txs)

/-- The `Total_Profit` column of `sales_by_region` (lines 111-116): profit
summed by `Region_ID`, then joined back with `region_dim`. -/
def sales_by_region (txs : List Tx) : List ((Nat × ℚ) × Region) :=
  joinKey (groupSum factRid (fun f => (factTx f).Profit) (fact_table txs))
    Prod.fst ((region_dim txs).map fun rv => (rv.2, rv.1))

/-- `snapshot_date = fact_table['Date'].max() + timedelta(days=1)` (line 119). -/
def snapshot_date (F : List ((Tx × Nat) × Nat)) : Nat :=
  (F.map fun f => (factTx f).Date).foldr max 0 + 1

/-- One row of the RFM table. -/
structure RfmRow where
  Customer_ID : Nat
  Recency : Nat
  Frequency : Nat
  Monetary : ℚ
deriving DecidableEq

/-- `rfm` (lines 120-124): grouped by `Customer_ID`;
`Recency = (snapshot_date - x.max()).days`, `Frequency` = transaction count,
`Monetary` = summed `Total_Sales`. -/
def rfm (F : List ((Tx × Nat) × Nat)) : List RfmRow :=
  (firstAppearance (F.map fun f => (factTx f).Customer_ID)).map fun c =>
    let mine := F.filter fun f => (factTx f).Customer_ID = c
    { Customer_ID := c
      Recency := snapshot_date F - (mine.map fun f => (factTx f).Date).foldr max 0
      Frequency := mine.length
      Monetary := (mine.map fun f => (factTx f).Total_Sales).sum }

/-! ### The integrity validator (lines 81-82) -/

/-- The assertion of line 81: every row has `Unit_Cost ≤ Unit_Price`. -/
def validator_cost_ok (txs : List Tx) : Prop :=
  ∀ tx ∈ txs, tx.Unit_Cost ≤ tx.Unit_Price

/-- The assertion of line 82: no duplicated `Transaction_ID`. -/
def validator_ids_ok (txs : List Tx) : Prop :=
  (txs.map Tx.Transaction_ID).Nodup

/-! ### Concrete sample draws (used to exercise the theorems below)

`exDrawA` dates its transaction on 2023-12-02 (offset 335 from the start
date), a Saturday in a holiday month; `exDrawB` on 2023-03-15 (offset 73),
a mid-month Wednesday. -/

def exDrawA : RawDraw :=
  { dateOffset := 335, product := .Laptop, region := .North,
    baseUnits := 7, customer := 12345, price := 1000 }

def exDrawB : RawDraw :=
  { dateOffset := 73, product := .Tablet, region := .East,
    baseUnits := 5, customer := 20000, price := 300 }

def exDisc : ℚ := 3/4

/-- The single fact-table row produced by the dataset of `exDrawA` alone. -/
def exFactA : (Tx × Nat) × Nat := ((deriveTx exDisc 1 exDrawA, 1000), 2000)

/-- The single RFM row produced by the dataset of `exDrawA` alone. -/
def exRfmA : RfmRow :=
  { Customer_ID := 12345, Recency := 1, Frequency := 1, Monetary := 10500 }

/-! ### Sanity checks of the calendar and identity embeddings -/

example : civilFromDays 19358 = (2023, 1, 1) := by decide
example : daysFromCivil 2023 1 1 = 19358 := by decide
example : civilFromDays (19358 + 730) = (2024, 12, 31) := by decide
example : daysFromCivil 2024 12 31 = 19358 + 730 := by decide
example : dowOf 19358 = 6 := by decide
example : civilFromDays (daysFromCivil 2024 2 29) = (2024, 2, 29) := by decide
example : dateRangeDays = 730 := by decide
example : txId 1 = "TX-00001" := by decide
example : txId 2 = "TX-00002" := by decide
example : txId 1000 = "TX-01000" := by decide
example : civilFromDays (startOrd + exDrawA.dateOffset) = (2023, 12, 2) := by decide
example : dowOf (startOrd + exDrawA.dateOffset) = 5 := by decide
example : civilFromDays (startOrd + exDrawB.dateOffset) = (2023, 3, 15) := by decide
example : dowOf (startOrd + exDrawB.dateOffset) = 2 := by decide

/-! ### Helper lemmas: dataset construction -/

lemma mem_mkDatasetAux {disc : ℚ} {tx : Tx} :
    ∀ {i₀ : Nat} {rs : List RawDraw}, tx ∈ mkDatasetAux disc i₀ rs →
    ∃ i r, r ∈ rs ∧ tx = deriveTx disc i r := by
  intro i₀ rs
  induction rs generalizing i₀ with
  | nil => intro h; simp [mkDatasetAux] at h
  | cons r rs ih =>
    intro h
    rcases List.mem_cons.mp h with h | h
    · exact ⟨i₀, r, by simp, h⟩
    · obtain ⟨i, r', hr', htx⟩ := ih h
      exact ⟨i, r', by simp [hr'], htx⟩

lemma mem_mkDataset {draws : List RawDraw} {disc : ℚ} {tx : Tx}
    (h : tx ∈ mkDataset draws disc) :
    ∃ i r, r ∈ draws ∧ tx = deriveTx disc i r :=
  mem_mkDatasetAux h

lemma mkDatasetAux_map_id (disc : ℚ) :
    ∀ (i₀ : Nat) (rs : List RawDraw),
    (mkDatasetAux disc i₀ rs).map Tx.Transaction_ID
      = (List.range' i₀ rs.length).map txId := by
  intro i₀ rs
  induction rs generalizing i₀ with
  | nil => simp [mkDatasetAux]
  | cons r rs ih => simp [mkDatasetAux, List.range'_succ, deriveTx, ih]

/-! ### Helper lemmas: transaction identities -/

lemma digitVal_digitChar {d : Nat} (hd : d < 10) : digitVal (digitChar d) = d := by
  interval_cases d <;> rfl

lemma digitChar_ne_zero_char {d : Nat} (hd : d < 10) (hd0 : d ≠ 0) :
    digitChar d ≠ '0' := by
  interval_cases d <;> simp_all <;> decide

lemma decCharsAux_eq : ∀ (fuel n : Nat), n ≤ fuel →
    decCharsAux fuel n = ((Nat.digits 10 n).map digitChar).reverse := by
  intro fuel
  induction fuel with
  | zero => intro n h; interval_cases n; simp [decCharsAux]
  | succ fuel ih =>
    intro n h
    by_cases hn : n = 0
    · subst hn; simp [decCharsAux]
    · have hdiv : n / 10 ≤ fuel := by
        have := Nat.div_lt_self (Nat.pos_of_ne_zero hn) (by norm_num : 1 < 10)
        omega
      rw [decCharsAux, if_neg hn, ih _ hdiv,
        Nat.digits_def' (by norm_num : 1 < 10) (Nat.pos_of_ne_zero hn)]
      simp

lemma decChars_eq (n : Nat) :
    decChars n = ((Nat.digits 10 n).map digitChar).reverse :=
  decCharsAux_eq n n le_rfl

lemma stripZeros_replicate (k : Nat) (l : List Char) :
    stripZeros (List.replicate k '0' ++ l) = stripZeros l := by
  induction k with
  | zero => simp
  | succ k ih => simpa [List.replicate_succ, stripZeros] using ih

lemma stripZeros_cons_ne {c : Char} (t : List Char) (h : c ≠ '0') :
    stripZeros (c :: t) = c :: t := by
  simp [stripZeros, h]

lemma decChars_head {n : Nat} (hn : n ≠ 0) :
    ∃ c t, decChars n = c :: t ∧ c ≠ '0' := by
  rw [decChars_eq]
  have hnil : Nat.digits 10 n ≠ [] := Nat.digits_ne_nil_iff_ne_zero.mpr hn
  rcases List.eq_nil_or_concat (Nat.digits 10 n) with h | ⟨l', d, hds⟩
  · exact absurd h hnil
  · refine ⟨digitChar d, (l'.map digitChar).reverse, by simp [hds], ?_⟩
    have hdmem : d ∈ Nat.digits 10 n := by simp [hds]
    have hdlt : d < 10 := Nat.digits_lt_base (by norm_num) hdmem
    have hdne : d ≠ 0 := by
      have := Nat.getLast_digit_ne_zero 10 hn
      rwa [show (Nat.digits 10 n).getLast (Nat.digits_ne_nil_iff_ne_zero.mpr hn)
          = d by simp [hds]] at this
    exact digitChar_ne_zero_char hdlt hdne

lemma map_digitChar_inj {l₁ l₂ : List Nat}
    (h₁ : ∀ d ∈ l₁, d < 10) (h₂ : ∀ d ∈ l₂, d < 10)
    (h : l₁.map digitChar = l₂.map digitChar) : l₁ = l₂ := by
  have e₁ : (l₁.map digitChar).map digitVal = l₁ := by
    rw [List.map_map]
    have : l₁.map (digitVal ∘ digitChar) = l₁.map id :=
      List.map_congr_left fun d hd => digitVal_digitChar (h₁ d hd)
    simpa using this
  have e₂ : (l₂.map digitChar).map digitVal = l₂ := by
    rw [List.map_map]
    have : l₂.map (digitVal ∘ digitChar) = l₂.map id :=
      List.map_congr_left fun d hd => digitVal_digitChar (h₂ d hd)
    simpa using this
  rw [← e₁, ← e₂, h]

lemma txId_inj {i j : Nat} (hi : i ≠ 0) (hj : j ≠ 0) (h : txId i = txId j) :
    i = j := by
  have hdata : 'T' :: 'X' :: '-' :: padChars i = 'T' :: 'X' :: '-' :: padChars j :=
    congrArg String.data h
  have hpad : padChars i = padChars j := by simpa using hdata
  have hdec : decChars i = decChars j := by
    have hz := congrArg stripZeros hpad
    rw [padChars, padChars, stripZeros_replicate, stripZeros_replicate] at hz
    obtain ⟨c, t, hct, hc⟩ := decChars_head hi
    obtain ⟨c', t', hct', hc'⟩ := decChars_head hj
    rw [hct, hct', stripZeros_cons_ne t hc, stripZeros_cons_ne t' hc'] at hz
    rw [hct, hct', hz]
  rw [decChars_eq, decChars_eq] at hdec
  have hrev : (Nat.digits 10 i).map digitChar = (Nat.digits 10 j).map digitChar :=
    List.reverse_injective hdec
  have hdig : Nat.digits 10 i = Nat.digits 10 j :=
    map_digitChar_inj (fun d hd => Nat.digits_lt_base (by norm_num) hd)
      (fun d hd => Nat.digits_lt_base (by norm_num) hd) hrev
  calc i = Nat.ofDigits 10 (Nat.digits 10 i) := (Nat.ofDigits_digits 10 i).symm
    _ = Nat.ofDigits 10 (Nat.digits 10 j) := by rw [hdig]
    _ = j := Nat.ofDigits_digits 10 j

/-! ### Helper lemmas: first appearance, surrogate keys -/

lemma mem_firstAppAux {α : Type} [DecidableEq α] {x : α} :
    ∀ {seen l : List α}, x ∈ firstAppAux seen l ↔ x ∈ l ∧ x ∉ seen := by
  intro seen l
  induction l generalizing seen with
  | nil => simp [firstAppAux]
  | cons a l ih =>
    by_cases ha : a ∈ seen
    · rw [firstAppAux, if_pos ha, ih]
      constructor
      · rintro ⟨hx, hxs⟩
        exact ⟨List.mem_cons_of_mem _ hx, hxs⟩
      · rintro ⟨hx, hxs⟩
        rcases List.mem_cons.mp hx with rfl | hx
        · exact absurd ha hxs
        · exact ⟨hx, hxs⟩
    · rw [firstAppAux, if_neg ha]
      by_cases hxa : x = a
      · subst hxa; simp [ha]
      · simp [List.mem_cons, hxa, ih]

lemma mem_firstAppearance {α : Type} [DecidableEq α] {x : α} {l : List α} :
    x ∈ firstAppearance l ↔ x ∈ l := by
  simp [firstAppearance, mem_firstAppAux]

lemma firstAppAux_nodup {α : Type} [DecidableEq α] :
    ∀ (seen l : List α), (firstAppAux seen l).Nodup := by
  intro seen l
  induction l generalizing seen with
  | nil => simp [firstAppAux]
  | cons a l ih =>
    by_cases ha : a ∈ seen
    · rw [firstAppAux, if_pos ha]; exact ih seen
    · rw [firstAppAux, if_neg ha]
      refine List.nodup_cons.mpr ⟨?_, ih (a :: seen)⟩
      intro hmem
      exact (mem_firstAppAux.mp hmem).2 (by simp)

lemma firstAppearance_nodup {α : Type} [DecidableEq α] (l : List α) :
    (firstAppearance l).Nodup :=
  firstAppAux_nodup [] l

lemma withKeys_map_fst {α : Type} :
    ∀ (base : Nat) (l : List α), (withKeys base l).map Prod.fst = l := by
  intro base l
  induction l generalizing base with
  | nil => simp [withKeys]
  | cons a l ih => simp [withKeys, ih]

lemma withKeys_map_snd {α : Type} :
    ∀ (base : Nat) (l : List α),
    (withKeys base l).map Prod.snd = List.range' base l.length := by
  intro base l
  induction l generalizing base with
  | nil => simp [withKeys]
  | cons a l ih => simp [withKeys, List.range'_succ, ih]

/-! ### Helper lemmas: joins -/

lemma filter_key_singleton {α κ : Type} [DecidableEq κ] (g : α → κ) :
    ∀ (l : List α), (l.map g).Nodup → ∀ k ∈ l.map g,
    ∃ a, (l.filter fun x => g x = k) = [a] ∧ g a = k := by
  intro l
  induction l with
  | nil => simp
  | cons a l ih =>
    intro hnd k hk
    have hna : g a ∉ l.map g := (List.nodup_cons.mp hnd).1
    have hndl : (l.map g).Nodup := (List.nodup_cons.mp hnd).2
    rcases List.mem_cons.mp hk with rfl | hk
    · refine ⟨a, ?_, rfl⟩
      rw [List.filter_cons_of_pos (by simp)]
      have : (l.filter fun x => g x = g a) = [] := by
        rw [List.filter_eq_nil_iff]
        intro x hx
        simp only [decide_eq_true_eq]
        exact fun hgx => hna (hgx ▸ List.mem_map_of_mem g hx)
      rw [this]
    · have hka : k ≠ g a := fun h => hna (h ▸ hk)
      obtain ⟨b, hb, hgb⟩ := ih hndl k hk
      refine ⟨b, ?_, hgb⟩
      rw [List.filter_cons_of_neg (by simpa using fun h => hka h.symm), hb]

lemma joinKey_map_fst {β κ γ : Type} [DecidableEq κ]
    {rows : List β} {key : β → κ} {dim : List (κ × γ)}
    (hnd : (dim.map Prod.fst).Nodup) (hmem : ∀ r ∈ rows, key r ∈ dim.map Prod.fst) :
    (joinKey rows key dim).map Prod.fst = rows := by
  induction rows with
  | nil => simp [joinKey]
  | cons r rows ih =>
    obtain ⟨a, ha, hga⟩ := filter_key_singleton Prod.fst dim hnd (key r)
      (hmem r (by simp))
    rw [joinKey, List.flatMap_cons, List.map_append, ha]
    have : joinKey rows key dim = rows.flatMap fun r =>
        (dim.filter fun kv => kv.1 = key r).map fun kv => (r, kv.2) := rfl
    rw [← this, ih fun r' hr' => hmem r' (by simp [hr'])]
    simp

lemma joinKey_mem {β κ γ : Type} [DecidableEq κ]
    {rows : List β} {key : β → κ} {dim : List (κ × γ)} {x : β × γ}
    (hx : x ∈ joinKey rows key dim) : x.1 ∈ rows ∧ (key x.1, x.2) ∈ dim := by
  simp only [joinKey, List.mem_flatMap, List.mem_map, List.mem_filter,
    decide_eq_true_eq] at hx
  obtain ⟨r, hr, kv, ⟨hkv, hkey⟩, rfl⟩ := hx
  exact ⟨hr, by simpa [← hkey] using hkv⟩

lemma joinKey_sum {β κ γ : Type} [DecidableEq κ]
    {rows : List β} {key : β → κ} {dim : List (κ × γ)} (v : β → ℚ)
    (hnd : (dim.map Prod.fst).Nodup) (hmem : ∀ r ∈ rows, key r ∈ dim.map Prod.fst) :
    ((joinKey rows key dim).map fun x => v x.1).sum = (rows.map v).sum := by
  have : ((joinKey rows key dim).map fun x => v x.1)
      = ((joinKey rows key dim).map Prod.fst).map v := by
    simp [List.map_map, Function.comp]
  rw [this, joinKey_map_fst hnd hmem]

/-! ### Helper lemmas: group-and-sum conservation -/

lemma sum_map_filter_split {β κ : Type} [DecidableEq κ]
    (key : β → κ) (val : β → ℚ) (k : κ) (l : List β) :
    ((l.filter fun r => key r = k).map val).sum
      + ((l.filter fun r => ¬ key r = k).map val).sum = (l.map val).sum := by
  induction l with
  | nil => simp
  | cons a l ih =>
    by_cases h : key a = k
    · rw [List.filter_cons_of_pos (by simp [h]),
        List.filter_cons_of_neg (by simp [h])]
      simp only [List.map_cons, List.sum_cons]
      rw [add_assoc, ih]
    · rw [List.filter_cons_of_neg (by simp [h]),
        List.filter_cons_of_pos (by simp [h])]
      simp only [List.map_cons, List.sum_cons]
      rw [← add_assoc, add_comm _ (val a), add_assoc, ih]

lemma sum_over_keys {β κ : Type} [DecidableEq κ] (key : β → κ) (val : β → ℚ) :
    ∀ (K : List κ), K.Nodup → ∀ (rows : List β), (∀ r ∈ rows, key r ∈ K) →
    (K.map fun k => ((rows.filter fun r => key r = k).map val).sum).sum
      = (rows.map val).sum := by
  intro K
  induction K with
  | nil =>
    intro _ rows hr
    have : rows = [] := by
      cases rows with
      | nil => rfl
      | cons a l => exact absurd (hr a (by simp)) (by simp)
    subst this; simp
  | cons k K ih =>
    intro hnd rows hr
    have hK : K.Nodup := (List.nodup_cons.mp hnd).2
    have hkK : k ∉ K := (List.nodup_cons.mp hnd).1
    rw [List.map_cons, List.sum_cons]
    have hmap : (K.map fun k' => ((rows.filter fun r => key r = k').map val).sum)
        = K.map fun k' =>
          (((rows.filter fun r => ¬ key r = k).filter fun r => key r = k').map val).sum := by
      apply List.map_congr_left
      intro k' hk'
      have hkk' : k ≠ k' := fun h => hkK (h ▸ hk')
      have hfilter : (rows.filter fun r => key r = k')
          = (rows.filter fun r => ¬ key r = k).filter fun r => key r = k' := by
        rw [List.filter_filter]
        apply List.filter_congr
        intro r _
        by_cases hrk : key r = k'
        · have hne : ¬ key r = k := fun h => hkk' (h.symm.trans hrk)
          simp [hrk, hne, Ne.symm hkk']
        · simp [hrk]
      rw [hfilter]
    rw [hmap, ih hK _ ?_]
    · exact sum_map_filter_split key val k rows
    · intro r hrmem
      have hrows : r ∈ rows := List.mem_of_mem_filter hrmem
      have hne : ¬ key r = k := by
        have := List.of_mem_filter hrmem
        simpa using this
      rcases List.mem_cons.mp (hr r hrows) with h | h
      · exact absurd h hne
      · exact h

lemma groupSum_sum {β κ : Type} [DecidableEq κ]
    (key : β → κ) (val : β → ℚ) (rows : List β) :
    ((groupSum key val rows).map Prod.snd).sum = (rows.map val).sum := by
  rw [groupSum, List.map_map]
  have : ((firstAppearance (rows.map key)).map
      (Prod.snd ∘ fun k => (k, ((rows.filter fun r => key r = k).map val).sum)))
      = (firstAppearance (rows.map key)).map
      fun k => ((rows.filter fun r => key r = k).map val).sum := by
    simp [Function.comp]
  rw [this]
  exact sum_over_keys key val _ (firstAppearance_nodup _) rows
    fun r hrmem => mem_firstAppearance.mpr (List.mem_map_of_mem key hrmem)

lemma groupSum_keys_mem {β κ : Type} [DecidableEq κ]
    {key : β → κ} {val : β → ℚ} {rows : List β} {x : κ × ℚ}
    (hx : x ∈ groupSum key val rows) : ∃ r ∈ rows, key r = x.1 := by
  simp only [groupSum, List.mem_map] at hx
  obtain ⟨k, hk, rfl⟩ := hx
  obtain ⟨r, hr, hkr⟩ := List.mem_map.mp (mem_firstAppearance.mp hk)
  exact ⟨r, hr, hkr⟩

/-! ### Helper lemmas: dimensions and the fact table -/

lemma product_dim_map_fst (txs : List Tx) :
    (product_dim txs).map Prod.fst = firstAppearance (txs.map Tx.product) :=
  withKeys_map_fst 1000 _

lemma product_dim_map_snd (txs : List Tx) :
    (product_dim txs).map Prod.snd
      = List.range' 1000 (firstAppearance (txs.map Tx.product)).length :=
  withKeys_map_snd 1000 _

lemma region_dim_map_fst (txs : List Tx) :
    (region_dim txs).map Prod.fst = firstAppearance (txs.map Tx.region) :=
  withKeys_map_fst 2000 _

lemma region_dim_map_snd (txs : List Tx) :
    (region_dim txs).map Prod.snd
      = List.range' 2000 (firstAppearance (txs.map Tx.region)).length :=
  withKeys_map_snd 2000 _

lemma product_dim_fst_nodup (txs : List Tx) :
    ((product_dim txs).map Prod.fst).Nodup := by
  rw [product_dim_map_fst]; exact firstAppearance_nodup _

lemma region_dim_fst_nodup (txs : List Tx) :
    ((region_dim txs).map Prod.fst).Nodup := by
  rw [region_dim_map_fst]; exact firstAppearance_nodup _

lemma product_dim_snd_nodup (txs : List Tx) :
    ((product_dim txs).map Prod.snd).Nodup := by
  rw [product_dim_map_snd]; exact List.nodup_range' _ _

lemma region_dim_snd_nodup (txs : List Tx) :
    ((region_dim txs).map Prod.snd).Nodup := by
  rw [region_dim_map_snd]; exact List.nodup_range' _ _

lemma product_mem_dim_fst {txs : List Tx} {tx : Tx} (h : tx ∈ txs) :
    tx.product ∈ (product_dim txs).map Prod.fst := by
  rw [product_dim_map_fst]
  exact mem_firstAppearance.mpr (List.mem_map_of_mem Tx.product h)

lemma region_mem_dim_fst {txs : List Tx} {tx : Tx} (h : tx ∈ txs) :
    tx.region ∈ (region_dim txs).map Prod.fst := by
  rw [region_dim_map_fst]
  exact mem_firstAppearance.mpr (List.mem_map_of_mem Tx.region h)

lemma join1_map_fst (txs : List Tx) :
    (joinKey txs Tx.product (product_dim txs)).map Prod.fst = txs :=
  joinKey_map_fst (product_dim_fst_nodup txs) fun _ h => product_mem_dim_fst h

lemma join1_mem {txs : List Tx} {pr : Tx × Nat}
    (h : pr ∈ joinKey txs Tx.product (product_dim txs)) :
    pr.1 ∈ txs ∧ (pr.1.product, pr.2) ∈ product_dim txs :=
  joinKey_mem h

lemma fact_table_map_fst (txs : List Tx) :
    (fact_table txs).map Prod.fst = joinKey txs Tx.product (product_dim txs) := by
  apply joinKey_map_fst (region_dim_fst_nodup txs)
  intro pr hpr
  exact region_mem_dim_fst (join1_mem hpr).1

lemma fact_table_map_tx (txs : List Tx) :
    (fact_table txs).map factTx = txs := by
  have h1 : (fact_table txs).map factTx
      = ((fact_table txs).map Prod.fst).map Prod.fst := by
    simp [List.map_map, factTx, Function.comp]
  rw [h1, fact_table_map_fst, join1_map_fst]

lemma fact_table_mem {txs : List Tx} {f : (Tx × Nat) × Nat}
    (h : f ∈ fact_table txs) :
    factTx f ∈ txs ∧ ((factTx f).product, factPid f) ∈ product_dim txs
      ∧ ((factTx f).region, factRid f) ∈ region_dim txs := by
  have h2 := joinKey_mem h
  have h1 := join1_mem h2.1
  exact ⟨h1.1, h1.2, h2.2⟩

lemma fact_pid_mem {txs : List Tx} {f : (Tx × Nat) × Nat}
    (h : f ∈ fact_table txs) : factPid f ∈ (product_dim txs).map Prod.snd := by
  have := (fact_table_mem h).2.1
  exact List.mem_map.mpr ⟨_, this, rfl⟩

lemma fact_rid_mem {txs : List Tx} {f : (Tx × Nat) × Nat}
    (h : f ∈ fact_table txs) : factRid f ∈ (region_dim txs).map Prod.snd := by
  have := (fact_table_mem h).2.2
  exact List.mem_map.mpr ⟨_, this, rfl⟩

/-! ### Helper lemmas: aggregate profit sums -/

lemma sales_by_product_sum (txs : List Tx) :
    ((sales_by_product txs).map fun row => row.1.2).sum
      = ((fact_table txs).map fun f => (factTx f).Profit).sum := by
  rw [sales_by_product]
  have hnd : (((product_dim txs).map fun pv => (pv.2, pv.1)).map Prod.fst).Nodup := by
    have : ((product_dim txs).map fun pv => (pv.2, pv.1)).map Prod.fst
        = (product_dim txs).map Prod.snd := by
      simp [List.map_map, Function.comp]
    rw [this]; exact product_dim_snd_nodup txs
  have hmem : ∀ r ∈ groupSum factPid (fun f => (factTx f).Profit) (fact_table txs),
      r.1 ∈ ((product_dim txs).map fun pv => (pv.2, pv.1)).map Prod.fst := by
    intro r hr
    obtain ⟨f, hf, hkey⟩ := groupSum_keys_mem hr
    have : ((product_dim txs).map fun pv => (pv.2, pv.1)).map Prod.fst
        = (product_dim txs).map Prod.snd := by
      simp [List.map_map, Function.comp]
    rw [this, ← hkey]
    exact fact_pid_mem hf
  rw [joinKey_sum Prod.snd hnd hmem]
  exact groupSum_sum _ _ _

lemma sales_by_region_sum (txs : List Tx) :
    ((sales_by_region txs).map fun row => row.1.2).sum
      = ((fact_table txs).map fun f => (factTx f).Profit).sum := by
  rw [sales_by_region]
  have hnd : (((region_dim txs).map fun rv => (rv.2, rv.1)).map Prod.fst).Nodup := by
    have : ((region_dim txs).map fun rv => (rv.2, rv.1)).map Prod.fst
        = (region_dim txs).map Prod.snd := by
      simp [List.map_map, Function.comp]
    rw [this]; exact region_dim_snd_nodup txs
  have hmem : ∀ r ∈ groupSum factRid (fun f => (factTx f).Profit) (fact_table txs),
      r.1 ∈ ((region_dim txs).map fun rv => (rv.2, rv.1)).map Prod.fst := by
    intro r hr
    obtain ⟨f, hf, hkey⟩ := groupSum_keys_mem hr
    have : ((region_dim txs).map fun rv => (rv.2, rv.1)).map Prod.fst
        = (region_dim txs).map Prod.snd := by
      simp [List.map_map, Function.comp]
    rw [this, ← hkey]
    exact fact_rid_mem hf
  rw [joinKey_sum Prod.snd hnd hmem]
  exact groupSum_sum _ _ _

lemma sales_trends_sum (txs : List Tx) :
    ((sales_trends txs).map Prod.snd).sum
      = ((fact_table txs).map fun f => (factTx f).Profit).sum :=
  groupSum_sum _ _ _

/-! ### Helper lemmas: maxima of date lists -/

lemma le_foldr_max {l : List Nat} {x : Nat} (hx : x ∈ l) :
    x ≤ l.foldr max 0 := by
  induction l with
  | nil => simp at hx
  | cons a l ih =>
    rcases List.mem_cons.mp hx with rfl | hx
    · simp [List.foldr_cons, le_max_left]
    · exact le_trans (ih hx) (by simp [List.foldr_cons, le_max_right])

lemma foldr_max_le {l : List Nat} {b : Nat} (h : ∀ x ∈ l, x ≤ b) :
    l.foldr max 0 ≤ b := by
  induction l with
  | nil => simp
  | cons a l ih =>
    simp only [List.foldr_cons, max_le_iff]
    exact ⟨h a (by simp), ih fun x hx => h x (by simp [hx])⟩

/-! ### Helper lemmas: per-transaction field equations -/

lemma priceLow_pos (p : Product) : 0 < priceLow p := by
  cases p <;> norm_num [priceLow]

lemma units_sold_eq (disc : ℚ) (i : Nat) (r : RawDraw) :
    (deriveTx disc i r).Units_Sold = (r.baseUnits : ℚ) *
      (1 + (((if monthOf (startOrd + r.dateOffset) = 12
              ∨ monthOf (startOrd + r.dateOffset) = 1 then (1 : Nat) else 0) : Nat) : ℚ)
            * (3/10)
         + (if 4 < dowOf (startOrd + r.dateOffset) then (1 : ℚ) else 0) * (2/10)) := rfl

lemma unit_price_eq (disc : ℚ) (i : Nat) (r : RawDraw) :
    (deriveTx disc i r).Unit_Price = r.price := rfl

lemma unit_cost_eq (disc : ℚ) (i : Nat) (r : RawDraw) :
    (deriveTx disc i r).Unit_Cost
      = min (r.price * (9/10)) (r.price * disc) := rfl

lemma total_sales_eq (disc : ℚ) (i : Nat) (r : RawDraw) :
    (deriveTx disc i r).Total_Sales
      = (deriveTx disc i r).Units_Sold * r.price := rfl

lemma total_cost_eq (disc : ℚ) (i : Nat) (r : RawDraw) :
    (deriveTx disc i r).Total_Cost
      = (deriveTx disc i r).Units_Sold * (deriveTx disc i r).Unit_Cost := rfl

lemma profit_eq (disc : ℚ) (i : Nat) (r : RawDraw) :
    (deriveTx disc i r).Profit
      = (deriveTx disc i r).Total_Sales - (deriveTx disc i r).Total_Cost := rfl

lemma margin_eq (disc : ℚ) (i : Nat) (r : RawDraw) :
    (deriveTx disc i r).Profit_Margin
      = (deriveTx disc i r).Profit / (deriveTx disc i r).Total_Sales * 100 := rfl

lemma units_sold_bounds {disc : ℚ} {i : Nat} {r : RawDraw}
    (hb : 1 ≤ r.baseUnits) :
    (r.baseUnits : ℚ) ≤ (deriveTx disc i r).Units_Sold
    ∧ 0 < (deriveTx disc i r).Units_Sold := by
  have h1 : (1 : ℚ) ≤ (r.baseUnits : ℚ) := by exact_mod_cast hb
  have h0 : (0 : ℚ) < (r.baseUnits : ℚ) := lt_of_lt_of_le one_pos h1
  rw [units_sold_eq]
  split_ifs <;> push_cast <;> refine ⟨?_, ?_⟩ <;> nlinarith [h0, h1]

/-! ### The claims -/

/-- **C1**: Profit mass is conserved under aggregation: for every synthesized
dataset, the sum of `Total_Profit` over the by-product aggregate rows, the sum
of `Total_Profit` over the by-region aggregate rows, and the sum of `Profit`
over the by-month aggregate rows each equal the sum of `Profit` over all
fact-table rows. -/
theorem claim_profit_mass_conservation (draws : List RawDraw) (disc : ℚ) :
    ((sales_by_product (mkDataset draws disc)).map fun row => row.1.2).sum
        = ((fact_table (mkDataset draws disc)).map fun f => (factTx f).Profit).sum
    ∧ ((sales_by_region (mkDataset draws disc)).map fun row => row.1.2).sum
        = ((fact_table (mkDataset draws disc)).map fun f => (factTx f).Profit).sum
    ∧ ((sales_trends (mkDataset draws disc)).map Prod.snd).sum
        = ((fact_table (mkDataset draws disc)).map fun f => (factTx f).Profit).sum :=
  ⟨sales_by_product_sum _, sales_by_region_sum _, sales_trends_sum _⟩

/-- **C2**: For every transaction, unit cost is at most unit price: under
`Unit_Cost = min(Unit_Price * 0.9, Unit_Price * disc)` the line-81 assertion
(the Integrity Validator's cost-vs-price check) holds for any discount draw
whatsoever, so it can never fire. -/
theorem claim_cost_le_price (draws : List RawDraw) (disc : ℚ)
    (hval : ∀ r ∈ draws, drawValid r) :
    validator_cost_ok (mkDataset draws disc) := by
  intro tx htx
  obtain ⟨i, r, hr, rfl⟩ := mem_mkDataset htx
  obtain ⟨-, -, -, -, -, hlo, -⟩ := hval r hr
  have hp : (0 : ℚ) ≤ r.price := le_trans (le_of_lt (priceLow_pos r.product)) hlo
  rw [unit_cost_eq, unit_price_eq]
  calc min (r.price * (9/10)) (r.price * disc)
      ≤ r.price * (9/10) := min_le_left _ _
    _ ≤ r.price * 1 := mul_le_mul_of_nonneg_left (by norm_num) hp
    _ = r.price := mul_one _

/-- Witness for C2 at a concrete draw. -/
theorem claim_cost_le_price_witness :
    (∀ r ∈ [exDrawA], drawValid r)
    ∧ validator_cost_ok (mkDataset [exDrawA] exDisc) :=
  ⟨by decide, claim_cost_le_price [exDrawA] exDisc (by decide)⟩

/-- **C7**: The Schema Normalizer assigns distinct product names surrogate keys
`1000, 1001, ...` (regions `2000, 2001, ...`) in order of first appearance;
the fact table holds exactly one row per input transaction, and each fact
row's product key and region key resolve to exactly one dimension row. -/
theorem claim_star_schema (draws : List RawDraw) (disc : ℚ) :
    (product_dim (mkDataset draws disc)).map Prod.fst
        = firstAppearance ((mkDataset draws disc).map Tx.product)
    ∧ (product_dim (mkDataset draws disc)).map Prod.snd
        = List.range' 1000 (firstAppearance ((mkDataset draws disc).map Tx.product)).length
    ∧ (region_dim (mkDataset draws disc)).map Prod.fst
        = firstAppearance ((mkDataset draws disc).map Tx.region)
    ∧ (region_dim (mkDataset draws disc)).map Prod.snd
        = List.range' 2000 (firstAppearance ((mkDataset draws disc).map Tx.region)).length
    ∧ (fact_table (mkDataset draws disc)).map factTx = mkDataset draws disc
    ∧ (∀ f ∈ fact_table (mkDataset draws disc),
        ((product_dim (mkDataset draws disc)).filter fun pv => pv.2 = factPid f).length = 1)
    ∧ (∀ f ∈ fact_table (mkDataset draws disc),
        ((region_dim (mkDataset draws disc)).filter fun rv => rv.2 = factRid f).length = 1) := by
  refine ⟨product_dim_map_fst _, product_dim_map_snd _, region_dim_map_fst _,
    region_dim_map_snd _, fact_table_map_tx _, ?_, ?_⟩
  · intro f hf
    obtain ⟨a, ha, -⟩ := filter_key_singleton Prod.snd (product_dim (mkDataset draws disc))
      (product_dim_snd_nodup _) (factPid f) (fact_pid_mem hf)
    rw [ha]
    rfl
  · intro f hf
    obtain ⟨a, ha, -⟩ := filter_key_singleton Prod.snd (region_dim (mkDataset draws disc))
      (region_dim_snd_nodup _) (factRid f) (fact_rid_mem hf)
    rw [ha]
    rfl

/-- Witness for C7 at a concrete draw. -/
theorem claim_star_schema_witness :
    exFactA ∈ fact_table (mkDataset [exDrawA] exDisc)
    ∧ ((product_dim (mkDataset [exDrawA] exDisc)).filter
        fun pv => pv.2 = factPid exFactA).length = 1 := by
  have hfact : fact_table (mkDataset [exDrawA] exDisc) = [exFactA] := rfl
  have hmem : exFactA ∈ fact_table (mkDataset [exDrawA] exDisc) := by
    rw [hfact]; exact List.mem_singleton.mpr rfl
  exact ⟨hmem, (claim_star_schema [exDrawA] exDisc).2.2.2.2.2.1 exFactA hmem⟩

/-- **C8**: Transaction identities are assigned sequentially as zero-padded
tokens `TX-00001, TX-00002, ...` and are pairwise distinct for every record
count, independent of any random draw, so the line-82 duplicate-identity
check can never fire. -/
theorem claim_transaction_ids_unique (draws : List RawDraw) (disc : ℚ) :
    (mkDataset draws disc).map Tx.Transaction_ID
        = (List.range' 1 draws.length).map txId
    ∧ validator_ids_ok (mkDataset draws disc)
    ∧ txId 1 = "TX-00001" ∧ txId 2 = "TX-00002" := by
  refine ⟨mkDatasetAux_map_id disc 1 draws, ?_, by decide, by decide⟩
  unfold validator_ids_ok
  rw [show mkDataset draws disc = mkDatasetAux disc 1 draws from rfl,
    mkDatasetAux_map_id disc 1 draws]
  apply List.Nodup.map_on ?_ (List.nodup_range' _ _)
  intro x hx y hy hxy
  have hx1 : 1 ≤ x := (List.mem_range'_1.mp hx).1
  have hy1 : 1 ≤ y := (List.mem_range'_1.mp hy).1
  exact txId_inj (by omega) (by omega) hxy

/-- Evaluation helper: the dataset of the single draw `exDrawA`. -/
lemma mkDataset_exDrawA :
    mkDataset [exDrawA] exDisc = [deriveTx exDisc 1 exDrawA] := rfl

/-- Evaluation helper: membership of the single derived transaction. -/
lemma mem_exDrawA : deriveTx exDisc 1 exDrawA ∈ mkDataset [exDrawA] exDisc := by
  rw [mkDataset_exDrawA]; exact List.mem_singleton.mpr rfl

/-- Evaluation helper: the seasonally adjusted quantity of `exDrawA`'s
transaction (base 7, December Saturday, multiplier 1.5). -/
lemma exDrawA_units : (deriveTx exDisc 1 exDrawA).Units_Sold = 21/2 := by
  rw [units_sold_eq, if_pos (by decide), if_pos (by decide)]
  norm_num [exDrawA]

/-- Evaluation helper: `exDrawA`'s transaction has `Total_Sales = 10500`. -/
lemma exDrawA_total_sales : (deriveTx exDisc 1 exDrawA).Total_Sales = 10500 := by
  rw [total_sales_eq, exDrawA_units]
  norm_num [exDrawA]

/-- **C3 (amended)**: the cohort-month label equals the transaction's own
month period except when the transaction falls on the first day of a month,
in which case it is the preceding month period (`MonthBegin(-1)` only crosses
a month boundary from a month-begin anchor). -/
theorem claim_cohort_month_amended (draws : List RawDraw) (disc : ℚ) :
    ∀ tx ∈ mkDataset draws disc,
      (domOf tx.Date = 1 → tx.Cohort_Month = prevYM tx.Month_Year)
      ∧ (domOf tx.Date ≠ 1 → tx.Cohort_Month = tx.Month_Year) := by
  intro tx htx
  obtain ⟨i, r, hr, rfl⟩ := mem_mkDataset htx
  have hC : (deriveTx disc i r).Cohort_Month = cohortYM (startOrd + r.dateOffset) := rfl
  have hM : (deriveTx disc i r).Month_Year = ymOf (startOrd + r.dateOffset) := rfl
  have hD : (deriveTx disc i r).Date = startOrd + r.dateOffset := rfl
  rw [hC, hM, hD]
  unfold cohortYM
  constructor
  · intro h1; rw [if_pos h1]
  · intro h1; rw [if_neg h1]

/-- Counterexample to **C3** as stated: the transaction of `exDrawB` is dated
2023-03-15 (mid-March), yet its cohort-month label is 2023-03, not the
preceding month 2023-02 claimed by the specification. -/
theorem claim_cohort_month_counterexample :
    deriveTx exDisc 1 exDrawB ∈ mkDataset [exDrawB] exDisc
    ∧ (deriveTx exDisc 1 exDrawB).Month = 3
    ∧ (deriveTx exDisc 1 exDrawB).Month_Year = (2023, 3)
    ∧ (deriveTx exDisc 1 exDrawB).Cohort_Month = (2023, 3)
    ∧ (deriveTx exDisc 1 exDrawB).Cohort_Month ≠ (2023, 2) := by
  refine ⟨?_, by decide, by decide, by decide, by decide⟩
  rw [show mkDataset [exDrawB] exDisc = [deriveTx exDisc 1 exDrawB] from rfl]
  exact List.mem_singleton.mpr rfl

/-- Witness for the amended C3 at a concrete draw (a mid-month date keeps its
own month as cohort label). -/
theorem claim_cohort_month_amended_witness :
    domOf (deriveTx exDisc 1 exDrawB).Date ≠ 1
    ∧ (deriveTx exDisc 1 exDrawB).Cohort_Month
        = (deriveTx exDisc 1 exDrawB).Month_Year := by
  have hmem : deriveTx exDisc 1 exDrawB ∈ mkDataset [exDrawB] exDisc := by
    rw [show mkDataset [exDrawB] exDisc = [deriveTx exDisc 1 exDrawB] from rfl]
    exact List.mem_singleton.mpr rfl
  exact ⟨by decide,
    (claim_cohort_month_amended [exDrawB] exDisc _ hmem).2 (by decide)⟩

/-- **C4 (amended)**: the base quantity is a uniformly drawn integer in
`[1, 50)` and the stored quantity is positive and at least the base quantity,
but it is a rational, not in general an integer, after the seasonal
adjustment. -/
theorem claim_quantity_amended (draws : List RawDraw) (disc : ℚ)
    (hval : ∀ r ∈ draws, drawValid r) :
    ∀ tx ∈ mkDataset draws disc,
      1 ≤ tx.baseUnits ∧ tx.baseUnits < 50
      ∧ (tx.baseUnits : ℚ) ≤ tx.Units_Sold ∧ 0 < tx.Units_Sold := by
  intro tx htx
  obtain ⟨i, r, hr, rfl⟩ := mem_mkDataset htx
  obtain ⟨-, hb1, hb2, -, -, -, -⟩ := hval r hr
  have hu := @units_sold_bounds disc i r hb1
  exact ⟨hb1, hb2, hu.1, hu.2⟩

/-- Counterexample to **C4** as stated: the transaction of `exDrawA` (base
quantity 7, December Saturday, multiplier 1.5) stores quantity 10.5, which is
not an integer. -/
theorem claim_quantity_counterexample :
    deriveTx exDisc 1 exDrawA ∈ mkDataset [exDrawA] exDisc
    ∧ drawValid exDrawA
    ∧ (deriveTx exDisc 1 exDrawA).Units_Sold = 21/2
    ∧ ¬ ∃ n : Nat, (deriveTx exDisc 1 exDrawA).Units_Sold = (n : ℚ) := by
  refine ⟨mem_exDrawA, by decide, exDrawA_units, ?_⟩
  rintro ⟨n, hn⟩
  rw [exDrawA_units] at hn
  have h21 : (21 : ℚ) = 2 * (n : ℚ) := by
    field_simp at hn
    linarith [hn]
  have h21' : (21 : Nat) = 2 * n := by exact_mod_cast h21
  omega

/-- Witness for the amended C4 at a concrete draw. -/
theorem claim_quantity_amended_witness :
    (∀ r ∈ [exDrawA], drawValid r)
    ∧ ((deriveTx exDisc 1 exDrawA).baseUnits : ℚ)
        ≤ (deriveTx exDisc 1 exDrawA).Units_Sold
    ∧ 0 < (deriveTx exDisc 1 exDrawA).Units_Sold := by
  have h := claim_quantity_amended [exDrawA] exDisc (by decide) _ mem_exDrawA
  exact ⟨by decide, h.2.2.1, h.2.2.2⟩

/-- **C5**: the stored quantity is the base draw times the single combined
multiplier `1 + 0.3·[month ∈ {December, January}] + 0.2·[day-of-week ∈
{Saturday, Sunday}]` (days 5 and 6 in the Monday-0 convention); in December
on a Saturday the multiplier is exactly 1.5. -/
theorem claim_seasonal_multiplier (draws : List RawDraw) (disc : ℚ) :
    ∀ tx ∈ mkDataset draws disc,
      tx.Units_Sold = (tx.baseUnits : ℚ) *
        (1 + (if tx.Month = 12 ∨ tx.Month = 1 then (3:ℚ)/10 else 0)
           + (if tx.Day_of_Week = 5 ∨ tx.Day_of_Week = 6 then (2:ℚ)/10 else 0))
      ∧ (tx.Month = 12 ∧ tx.Day_of_Week = 5 →
          tx.Units_Sold = (tx.baseUnits : ℚ) * (3/2)) := by
  intro tx htx
  obtain ⟨i, r, hr, rfl⟩ := mem_mkDataset htx
  have hM : (deriveTx disc i r).Month = monthOf (startOrd + r.dateOffset) := rfl
  have hD : (deriveTx disc i r).Day_of_Week = dowOf (startOrd + r.dateOffset) := rfl
  have hB : (deriveTx disc i r).baseUnits = r.baseUnits := rfl
  have hdow7 : dowOf (startOrd + r.dateOffset) < 7 := Nat.mod_lt _ (by norm_num)
  have hm : (((if monthOf (startOrd + r.dateOffset) = 12
        ∨ monthOf (startOrd + r.dateOffset) = 1 then (1 : Nat) else 0) : Nat) : ℚ) * (3/10)
      = if monthOf (startOrd + r.dateOffset) = 12 ∨ monthOf (startOrd + r.dateOffset) = 1
        then (3:ℚ)/10 else 0 := by
    split_ifs <;> norm_num
  have hw : (if 4 < dowOf (startOrd + r.dateOffset) then (1 : ℚ) else 0) * (2/10)
      = if dowOf (startOrd + r.dateOffset) = 5 ∨ dowOf (startOrd + r.dateOffset) = 6
        then (2:ℚ)/10 else 0 := by
    rcases Nat.lt_or_ge (dowOf (startOrd + r.dateOffset)) 5 with h | h
    · rw [if_neg (by omega), if_neg (by omega), zero_mul]
    · rw [if_pos (by omega), if_pos (by omega), one_mul]
  constructor
  · rw [units_sold_eq, hM, hD, hB, hm, hw]
  · rintro ⟨h12, h5⟩
    rw [hM] at h12
    rw [hD] at h5
    rw [units_sold_eq, hB, hm, hw, if_pos (Or.inl h12), if_pos (Or.inl h5)]
    ring_nf

/-- Witness for C5: `exDrawA`'s transaction falls in December on a Saturday
and its stored quantity is 1.5 times the base draw. -/
theorem claim_seasonal_multiplier_witness :
    (deriveTx exDisc 1 exDrawA).Month = 12
    ∧ (deriveTx exDisc 1 exDrawA).Day_of_Week = 5
    ∧ (deriveTx exDisc 1 exDrawA).Units_Sold
        = ((deriveTx exDisc 1 exDrawA).baseUnits : ℚ) * (3/2) :=
  ⟨by decide, by decide,
    (claim_seasonal_multiplier [exDrawA] exDisc _ mem_exDrawA).2
      ⟨by decide, by decide⟩⟩

/-- **C9**: the profit-margin computation never divides by zero: every
transaction has strictly positive `Total_Sales` (quantity ≥ 1 and unit price
> 0), so `Profit_Margin = Profit / Total_Sales * 100` is well defined. -/
theorem claim_margin_welldefined (draws : List RawDraw) (disc : ℚ)
    (hval : ∀ r ∈ draws, drawValid r) :
    ∀ tx ∈ mkDataset draws disc,
      0 < tx.Total_Sales ∧ tx.Total_Sales ≠ 0
      ∧ tx.Profit_Margin = tx.Profit / tx.Total_Sales * 100 := by
  intro tx htx
  obtain ⟨i, r, hr, rfl⟩ := mem_mkDataset htx
  obtain ⟨-, hb1, -, -, -, hlo, -⟩ := hval r hr
  have hp : (0 : ℚ) < r.price := lt_of_lt_of_le (priceLow_pos r.product) hlo
  have hu := (@units_sold_bounds disc i r hb1).2
  have hs : 0 < (deriveTx disc i r).Total_Sales := by
    rw [total_sales_eq]; exact mul_pos hu hp
  exact ⟨hs, ne_of_gt hs, margin_eq disc i r⟩

/-- Witness for C9 at a concrete draw. -/
theorem claim_margin_welldefined_witness :
    (∀ r ∈ [exDrawA], drawValid r)
    ∧ 0 < (deriveTx exDisc 1 exDrawA).Total_Sales :=
  ⟨by decide,
    (claim_margin_welldefined [exDrawA] exDisc (by decide) _ mem_exDrawA).1⟩

/-- **C10**: the cost-discount factor is one scalar `disc ∈ [0.6, 0.9)` shared
by all records, so `Unit_Cost = disc * Unit_Price` for every transaction (the
minimum with `0.9 * Unit_Price` always resolves to the discounted side) and
every transaction has the identical profit margin `(1 - disc) * 100`. -/
theorem claim_single_discount (draws : List RawDraw) (disc : ℚ)
    (hd : discValid disc) (hval : ∀ r ∈ draws, drawValid r) :
    ∀ tx ∈ mkDataset draws disc,
      tx.Unit_Cost = disc * tx.Unit_Price
      ∧ tx.Profit_Margin = (1 - disc) * 100 := by
  intro tx htx
  obtain ⟨i, r, hr, rfl⟩ := mem_mkDataset htx
  obtain ⟨-, hb1, -, -, -, hlo, -⟩ := hval r hr
  obtain ⟨hd1, hd2⟩ := hd
  have hp : (0 : ℚ) < r.price := lt_of_lt_of_le (priceLow_pos r.product) hlo
  have hcost : (deriveTx disc i r).Unit_Cost = disc * r.price := by
    rw [unit_cost_eq,
      min_eq_right (mul_le_mul_of_nonneg_left (le_of_lt hd2) hp.le)]
    ring
  constructor
  · rw [hcost, unit_price_eq]
  · have hu := (@units_sold_bounds disc i r hb1).2
    have hne : (deriveTx disc i r).Units_Sold * r.price ≠ 0 :=
      ne_of_gt (mul_pos hu hp)
    rw [margin_eq, profit_eq, total_cost_eq, total_sales_eq, hcost]
    field_simp
    ring

/-- Witness for C10 at a concrete draw. -/
theorem claim_single_discount_witness :
    discValid exDisc ∧ (∀ r ∈ [exDrawA], drawValid r)
    ∧ (deriveTx exDisc 1 exDrawA).Unit_Cost
        = exDisc * (deriveTx exDisc 1 exDrawA).Unit_Price
    ∧ (deriveTx exDisc 1 exDrawA).Profit_Margin = (1 - exDisc) * 100 := by
  have h := claim_single_discount [exDrawA] exDisc
    (by norm_num [discValid, exDisc]) (by decide) _ mem_exDrawA
  exact ⟨by norm_num [discValid, exDisc], by decide, h.1, h.2⟩

/-- RFM output shape over an arbitrary fact table: one row per distinct
customer, recency at least one day, frequency at least one transaction, and
the three metrics given by their grouped formulas. -/
lemma rfm_spec (F : List ((Tx × Nat) × Nat)) :
    ((rfm F).map RfmRow.Customer_ID).Nodup
    ∧ (∀ c : Nat, c ∈ (rfm F).map RfmRow.Customer_ID
        ↔ c ∈ F.map fun f => (factTx f).Customer_ID)
    ∧ ∀ row ∈ rfm F,
        1 ≤ row.Recency ∧ 1 ≤ row.Frequency
        ∧ row.Recency = snapshot_date F
            - ((F.filter fun f => (factTx f).Customer_ID = row.Customer_ID).map
                fun f => (factTx f).Date).foldr max 0
        ∧ row.Frequency
            = (F.filter fun f => (factTx f).Customer_ID = row.Customer_ID).length
        ∧ row.Monetary
            = ((F.filter fun f => (factTx f).Customer_ID = row.Customer_ID).map
                fun f => (factTx f).Total_Sales).sum := by
  have hmapc : (rfm F).map RfmRow.Customer_ID
      = firstAppearance (F.map fun f => (factTx f).Customer_ID) := by
    rw [rfm, List.map_map]
    have h1 : ∀ c ∈ firstAppearance (F.map fun f => (factTx f).Customer_ID),
        (RfmRow.Customer_ID ∘ fun c =>
          ({ Customer_ID := c
             Recency := snapshot_date F
               - ((F.filter fun f => (factTx f).Customer_ID = c).map
                   fun f => (factTx f).Date).foldr max 0
             Frequency := (F.filter fun f => (factTx f).Customer_ID = c).length
             Monetary := ((F.filter fun f => (factTx f).Customer_ID = c).map
                 fun f => (factTx f).Total_Sales).sum } : RfmRow)) c = id c :=
      fun c _ => rfl
    rw [List.map_congr_left h1, List.map_id]
  refine ⟨?_, ?_, ?_⟩
  · rw [hmapc]; exact firstAppearance_nodup _
  · intro c; rw [hmapc]; exact mem_firstAppearance
  · intro row hrow
    simp only [rfm, List.mem_map] at hrow
    obtain ⟨c, hc, rfl⟩ := hrow
    have hcF : c ∈ F.map fun f => (factTx f).Customer_ID := mem_firstAppearance.mp hc
    obtain ⟨f0, hf0, hf0c⟩ := List.mem_map.mp hcF
    have hfmem : f0 ∈ F.filter fun f => (factTx f).Customer_ID = c :=
      List.mem_filter.mpr ⟨hf0, by simp [hf0c]⟩
    have hlen : 1 ≤ (F.filter fun f => (factTx f).Customer_ID = c).length := by
      have := List.length_pos.mpr (List.ne_nil_of_mem hfmem)
      omega
    have hmaxle : ((F.filter fun f => (factTx f).Customer_ID = c).map
          fun f => (factTx f).Date).foldr max 0
        ≤ (F.map fun f => (factTx f).Date).foldr max 0 := by
      apply foldr_max_le
      intro x hx
      obtain ⟨f, hf, rfl⟩ := List.mem_map.mp hx
      exact le_foldr_max (List.mem_map.mpr ⟨f, List.mem_of_mem_filter hf, rfl⟩)
    refine ⟨?_, hlen, rfl, rfl, rfl⟩
    show 1 ≤ snapshot_date F
        - ((F.filter fun f => (factTx f).Customer_ID = c).map
            fun f => (factTx f).Date).foldr max 0
    rw [snapshot_date]
    omega

/-- **C6**: in the RFM output every distinct customer id of the fact table
appears exactly once (no duplicates, none missing); for each customer,
Recency = snapshot date minus that customer's latest transaction date in whole
days and is ≥ 1, Frequency = that customer's transaction count and is ≥ 1, and
Monetary = the sum of that customer's `Total_Sales`. -/
theorem claim_rfm_correct (draws : List RawDraw) (disc : ℚ) :
    ((rfm (fact_table (mkDataset draws disc))).map RfmRow.Customer_ID).Nodup
    ∧ (∀ c : Nat, c ∈ (rfm (fact_table (mkDataset draws disc))).map RfmRow.Customer_ID
        ↔ c ∈ (fact_table (mkDataset draws disc)).map fun f => (factTx f).Customer_ID)
    ∧ ∀ row ∈ rfm (fact_table (mkDataset draws disc)),
        1 ≤ row.Recency ∧ 1 ≤ row.Frequency
        ∧ row.Recency = snapshot_date (fact_table (mkDataset draws disc))
            - (((fact_table (mkDataset draws disc)).filter
                fun f => (factTx f).Customer_ID = row.Customer_ID).map
                fun f => (factTx f).Date).foldr max 0
        ∧ row.Frequency = ((fact_table (mkDataset draws disc)).filter
            fun f => (factTx f).Customer_ID = row.Customer_ID).length
        ∧ row.Monetary = (((fact_table (mkDataset draws disc)).filter
            fun f => (factTx f).Customer_ID = row.Customer_ID).map
            fun f => (factTx f).Total_Sales).sum :=
  rfm_spec _

/-- Witness for C6 at a concrete draw. -/
theorem claim_rfm_correct_witness :
    exRfmA ∈ rfm (fact_table (mkDataset [exDrawA] exDisc))
    ∧ 1 ≤ exRfmA.Recency ∧ 1 ≤ exRfmA.Frequency := by
  have hfact : fact_table (mkDataset [exDrawA] exDisc) = [exFactA] := rfl
  have hfil : ([exFactA].filter
      fun f => (factTx f).Customer_ID = (factTx exFactA).Customer_ID) = [exFactA] := rfl
  have hrfm : rfm (fact_table (mkDataset [exDrawA] exDisc)) = [exRfmA] := by
    rw [hfact]
    have h0 : rfm [exFactA] =
        [({ Customer_ID := (factTx exFactA).Customer_ID
            Recency := snapshot_date [exFactA]
              - (([exFactA].filter fun f =>
                  (factTx f).Customer_ID = (factTx exFactA).Customer_ID).map
                  fun f => (factTx f).Date).foldr max 0
            Frequency := ([exFactA].filter fun f =>
                (factTx f).Customer_ID = (factTx exFactA).Customer_ID).length
            Monetary := (([exFactA].filter fun f =>
                (factTx f).Customer_ID = (factTx exFactA).Customer_ID).map
                fun f => (factTx f).Total_Sales).sum } : RfmRow)] := rfl
    rw [h0, hfil]
    have hrow : ({ Customer_ID := (factTx exFactA).Customer_ID
                   Recency := snapshot_date [exFactA]
                     - ([exFactA].map fun f => (factTx f).Date).foldr max 0
                   Frequency := ([exFactA] : List ((Tx × Nat) × Nat)).length
                   Monetary := ([exFactA].map
                       fun f => (factTx f).Total_Sales).sum } : RfmRow)
        = exRfmA := by
      have hM : ([exFactA].map fun f => (factTx f).Total_Sales).sum = 10500 := by
        show (factTx exFactA).Total_Sales + 0 = 10500
        rw [add_zero]
        exact exDrawA_total_sales
      rw [show exRfmA
          = ({ Customer_ID := 12345, Recency := 1, Frequency := 1, Monetary := 10500 } : RfmRow)
          from rfl]
      congr 1
    rw [hrow]
  rw [hrfm]
  refine ⟨List.mem_singleton.mpr rfl, ?_, ?_⟩
  · have h := ((claim_rfm_correct [exDrawA] exDisc).2.2 exRfmA
      (by rw [hrfm]; exact List.mem_singleton.mpr rfl)).1
    exact h
  · have h := ((claim_rfm_correct [exDrawA] exDisc).2.2 exRfmA
      (by rw [hrfm]; exact List.mem_singleton.mpr rfl)).2.1
    exact h

end SalesAndProfitability
